import Mathlib

/-!
Verification development for the DNest4 model-builder code generator
(`Templates/Builder/builder.py`).  The Python source is shallowly embedded:
each distribution class becomes a constructor of an inductive type, each
string-producing method becomes an executable Lean function on `String`,
the insertion-ordered node registry (`OrderedDict`) becomes a `List Node`
with in-place update semantics, and Python exceptions (attribute errors on
a missing distribution, for instance) become `Option`-valued results.
-/

/-- Python `str.startswith` on character lists: `startsWithL pat s` is `true`
when `pat` is an initial segment of `s`. -/
def startsWithL : List Char → List Char → Bool
  | [], _ => true
  | _ :: _, [] => false
  | p :: ps, c :: cs => p == c && startsWithL ps cs

/-- Fuel-driven worker for Python `str.replace`: scans `s` left to right and
replaces every non-overlapping occurrence of `pat` by `rep`.  The fuel is
always called with `s.length`, which is enough for the scan to finish, so
the `0` case is never reached on a nonempty list; it makes the recursion
structural (and hence kernel-computable). -/
def replaceGo (pat rep : List Char) : Nat → List Char → List Char
  | _, [] => []
  | 0, s => s
  | fuel+1, c :: rest =>
    if startsWithL pat (c :: rest) = true ∧ pat ≠ []
    then rep ++ replaceGo pat rep fuel (rest.drop (pat.length - 1))
    else c :: replaceGo pat rep fuel rest

/-- Python `s.replace(pat, rep)` for the nonempty patterns used by the
builder (for an empty pattern the builder never calls `replace`, and this
model returns `s` unchanged). -/
def pyReplace (s pat rep : String) : String :=
  ⟨replaceGo pat.data rep.data s.data.length s.data⟩

/-- Python `s.split(sep)` for a single-character separator. -/
def splitOnChar (sep : Char) : List Char → List (List Char)
  | [] => [[]]
  | c :: rest =>
    let r := splitOnChar sep rest
    if c == sep then [] :: r
    else
      match r with
      | [] => [[c]]
      | h :: t => (c :: h) :: t

/-- Python `s.splitlines()` for strings whose only line separator is `'\n'`:
split on newlines and drop the trailing empty piece produced by a final
newline (`"".splitlines()` is `[]`). -/
def pySplitlines (s : String) : List String :=
  let parts := (splitOnChar '\n' s.data).map (fun l => (⟨l⟩ : String))
  if parts.getLast? = some "" then parts.dropLast else parts

/-- Python `name.split("[")[0]`: the base name before the first index
bracket. -/
def baseOf (s : String) : String :=
  ⟨(splitOnChar '[' s.data).headD []⟩

/-- Python `sep.join(l)`. -/
def joinWith (sep : String) : List String → String
  | [] => ""
  | [x] => x
  | x :: y :: xs => x ++ sep ++ joinWith sep (y :: xs)

/-- Concatenation of a list of strings (`"".join`). -/
def concatAll (l : List String) : String :=
  l.foldr (fun a b => a ++ b) ""

/-- Python `"\n".join("    " + x for x in s.splitlines())`, the indentation
applied by `Model.perturb` to each coordinate perturb fragment. -/
def indentLines (s : String) : String :=
  joinWith "\n" ((pySplitlines s).map (fun x => "    " ++ x))

/-- Python `s[0:-5]`, the slice taken by `Model.description`. -/
def dropLast5 (s : String) : String :=
  ⟨s.data.take (s.data.length - 5)⟩

/-- Substring test (Python `pat in s`), on character lists. -/
def hasSub (pat : List Char) : List Char → Bool
  | [] => startsWithL pat []
  | c :: rest => startsWithL pat (c :: rest) || hasSub pat rest

/-- Element type tag of a node (`dtype`), `int` or `float` in the source. -/
inductive DType where
  | tInt
  | tFloat
deriving DecidableEq

/-- The `NodeType` enumeration of the source: the role of a node. -/
inductive NodeType where
  | coordinate
  | derived
  | data
  | prior_info
deriving DecidableEq

/-- The closed set of distribution classes of the source (`Uniform`,
`LogUniform`, `Normal`, `Deterministic`), each carrying its constructor
parameters in the stringified form `str(...)` used by
`insert_parameters`. -/
inductive Distribution where
  | uniform (a b : String)
  | loguniform (a b : String)
  | normal (mu sigma : String)
  | deterministic (formula : String)
deriving DecidableEq

/-- `insert_parameters` of `Uniform` and `LogUniform`: substitute `{a}`
then `{b}`. -/
def insertAB (a b s : String) : String :=
  pyReplace (pyReplace s "\x7ba\x7d" a) "\x7bb\x7d" b

/-- `insert_parameters` of `Normal`: substitute `{mu}` then `{sigma}`. -/
def insertMuSigma (mu sigma s : String) : String :=
  pyReplace (pyReplace s "\x7bmu\x7d" mu) "\x7bsigma\x7d" sigma

/-- The `from_prior` method of each distribution class. -/
def Distribution.from_prior : Distribution → String
  | .uniform a b => insertAB a b "\x7bx\x7d = \x7ba\x7d + (\x7bb\x7d - (\x7ba\x7d))*rng.rand();\n"
  | .loguniform a b => insertAB a b "\x7bx\x7d = exp(log(\x7ba\x7d) + log((\x7bb\x7d)/(\x7ba\x7d))*rng.rand());\n"
  | .normal mu sigma => insertMuSigma mu sigma "\x7bx\x7d = \x7bmu\x7d + \x7bsigma\x7d*rng.randn();\n"
  | .deterministic formula => pyReplace "\x7bx\x7d = \x7bformula\x7d;\n" "\x7bformula\x7d" formula

/-- The `perturb` method of each distribution class (for `Deterministic`
it is defined as `from_prior`). -/
def Distribution.perturb : Distribution → String
  | .uniform a b => insertAB a b "\x7bx\x7d += (\x7bb\x7d - (\x7ba\x7d))*rng.randh();\nwrap(\x7bx\x7d, \x7ba\x7d, \x7bb\x7d);\n"
  | .loguniform a b => insertAB a b "\x7bx\x7d = log(\x7bx\x7d);\n\x7bx\x7d += log((\x7bb\x7d)/(\x7ba\x7d))*rng.randh();\nwrap(\x7bx\x7d, log(\x7ba\x7d), log(\x7bb\x7d));\n\x7bx\x7d = exp(\x7bx\x7d);\n"
  | .normal mu sigma => insertMuSigma mu sigma "log_H -= -0.5*pow(((\x7bx\x7d) - (\x7bmu\x7d))/(\x7bsigma\x7d), 2);\n\x7bx\x7d += (\x7bsigma\x7d)*rng.randh();\nlog_H += -0.5*pow(((\x7bx\x7d) - (\x7bmu\x7d))/(\x7bsigma\x7d), 2);\n"
  | .deterministic formula => Distribution.from_prior (.deterministic formula)

/-- The `log_density` method: `Deterministic` does not define it (calling
it raises `AttributeError` in Python), hence the `Option`. -/
def Distribution.log_density : Distribution → Option String
  | .uniform a b => some (insertAB a b "if(\x7bx\x7d < (\x7ba\x7d) || \x7bx\x7d > (\x7bb\x7d))\n    logp = -numeric_limits<double>::max();\nlogp += -log(\x7bb\x7d - (\x7ba\x7d));\n")
  | .loguniform a b => some (insertAB a b "if(\x7bx\x7d < (\x7ba\x7d) || \x7bx\x7d > (\x7bb\x7d))\n    logp = -numeric_limits<double>::max();\nlogp += -log(\x7bx\x7d) - log((\x7bb\x7d)/(\x7ba\x7d));\n")
  | .normal mu sigma => some (insertMuSigma mu sigma "logp += -0.5*log(2*M_PI) - log(\x7bsigma\x7d) - 0.5*pow(((\x7bx\x7d) - (\x7bmu\x7d))/(\x7bsigma\x7d), 2);\n")
  | .deterministic _ => none

/-- A registered parameter or data value (`Node`), after construction: the
stored `name` already carries the `[index]` suffix appended by
`__init__` when `index > 0`. -/
structure Node where
  dtype : DType
  name : String
  index : Nat
  prior : Option Distribution
  node_type : NodeType
deriving DecidableEq

/-- `Node.__init__`: appends the `[index]` suffix for `index > 0` and
asserts that a `prior_info` node has no distribution; the assertion
failure (Python `AssertionError`) aborts construction, so the result is
`none` in that case. -/
def Node.make (dtype : DType) (name : String) (prior : Option Distribution)
    (node_type : NodeType) (index : Nat) : Option Node :=
  let finalName := if index > 0 then name ++ "[" ++ toString index ++ "]" else name
  if node_type = NodeType.prior_info ∧ prior ≠ none then none
  else some ⟨dtype, finalName, index, prior, node_type⟩

/-- `Node.from_prior`: delegate to the distribution and substitute the
node's name for the `{x}` placeholder (`none` when there is no
distribution, as Python raises `AttributeError` on `None`). -/
def Node.from_prior (n : Node) : Option String :=
  n.prior.map (fun d => pyReplace d.from_prior "\x7bx\x7d" n.name)

/-- `Node.perturb`, delegating like `Node.from_prior`. -/
def Node.perturb (n : Node) : Option String :=
  n.prior.map (fun d => pyReplace d.perturb "\x7bx\x7d" n.name)

/-- `Node.log_density`, delegating like `Node.from_prior`; additionally
`none` when the distribution itself has no `log_density`. -/
def Node.log_density (n : Node) : Option String :=
  n.prior.bind (fun d => d.log_density.map (fun s => pyReplace s "\x7bx\x7d" n.name))

/-- In-place update of the insertion-ordered registry, mirroring
`OrderedDict.__setitem__`: an existing key keeps its position and gets the
new value, a new key is appended at the end. -/
def updateEntry (node : Node) : List Node → List Node
  | [] => [node]
  | n :: rest => if n.name = node.name then node :: rest else n :: updateEntry node rest

/-- The `Model`: an insertion-ordered registry of nodes keyed by their
final name. -/
structure Model where
  nodes : List Node
deriving DecidableEq

/-- `Model.add_node`: `self.nodes[node.name] = node`. -/
def Model.add_node (m : Model) (node : Node) : Model :=
  ⟨updateEntry node m.nodes⟩

/-- One filtered accumulation loop over the registry, as used by the
composition passes: concatenate `frag n` over the nodes selected by
`pick`, in registration order; a failing fragment (Python exception)
makes the whole pass fail. -/
def passLoop (pick : Node → Bool) (frag : Node → Option String) : List Node → Option String
  | [] => some ""
  | n :: rest =>
    if pick n then
      match frag n, passLoop pick frag rest with
      | some s, some r => some (s ++ r)
      | _, _ => none
    else passLoop pick frag rest

/-- Selection predicate used by the passes: `node.node_type == t`. -/
def isType (t : NodeType) (n : Node) : Bool :=
  decide (n.node_type = t)

/-- `Model.from_prior`: all coordinate fragments in registration order,
then all derived fragments in registration order. -/
def Model.from_prior (m : Model) : Option String := do
  let a ← passLoop (isType NodeType.coordinate) Node.from_prior m.nodes
  let b ← passLoop (isType NodeType.derived) Node.from_prior m.nodes
  pure (a ++ b)

/-- The loop of `Model.perturb` that emits one guarded block per
coordinate node, with the running counter `k`. -/
def perturbIfLoop (k : Nat) : List Node → Option String
  | [] => some ""
  | n :: rest =>
    if isType NodeType.coordinate n then
      match n.perturb, perturbIfLoop (k+1) rest with
      | some frag, some r =>
        some (pyReplace "if(which == \x7bk\x7d)\n\x7b\n" "\x7bk\x7d" (toString k)
              ++ indentLines frag ++ "\n\x7d\n" ++ r)
      | _, _ => none
    else perturbIfLoop k rest

/-- `Model.perturb`: count the coordinates, emit the `log_H` declaration
and the random index draw, one guarded block per coordinate, the derived
recomputation, and the return statement. -/
def Model.perturb (m : Model) : Option String := do
  let numCoords := m.nodes.countP (isType NodeType.coordinate)
  let ifs ← perturbIfLoop 0 m.nodes
  let der ← passLoop (isType NodeType.derived) Node.from_prior m.nodes
  pure ("double log_H = 0.0;\n"
        ++ pyReplace "int which = rng.rand_int(\x7bn\x7d);\n" "\x7bn\x7d" (toString numCoords)
        ++ ifs ++ der ++ "return log_H;\n")

/-- `Model.print_code`: one output statement per coordinate node. -/
def Model.print_code (m : Model) : String :=
  m.nodes.foldl
    (fun s n => if isType NodeType.coordinate n then s ++ "out<<" ++ n.name ++ "<<\" \";\n" else s)
    ""

/-- `Model.description`: build the comma-joined coordinate list, slice
off the last five characters, and close the string and return
statement. -/
def Model.description (m : Model) : String :=
  let s := m.nodes.foldl
    (fun s n => if isType NodeType.coordinate n then s ++ "s += \"" ++ n.name ++ ", \";\n" else s)
    "string s;\n"
  dropLast5 s ++ "\";" ++ "\nreturn s;"

/-- `Model.log_likelihood`: zero the accumulator, add the `log_density`
of every data node in registration order, and return it. -/
def Model.log_likelihood (m : Model) : Option String := do
  let body ← passLoop (isType NodeType.data) Node.log_density m.nodes
  pure ("double logp = 0.0;\n\n" ++ body ++ "\nreturn logp;")

/-- `Model.get_vector_names`: the set of base names of nodes of the given
role having a nonzero index. -/
def Model.get_vector_names (m : Model) (t : NodeType) : Finset String :=
  m.nodes.foldl
    (fun vecs n => if n.node_type = t ∧ n.index ≠ 0 then insert (baseOf n.name) vecs else vecs)
    ∅

/-- `Model.get_scalar_names`: names of nodes of the given role whose base
name is not a vector name of that role. -/
def Model.get_scalar_names (m : Model) (t : NodeType) : Finset String :=
  let vecs := m.get_vector_names t
  m.nodes.foldl
    (fun scalars n => if n.node_type = t ∧ baseOf n.name ∉ vecs then insert n.name scalars else scalars)
    ∅

/-- `Model.get_vector_size`: count the registry entries whose key equals
`vector_name` exactly. -/
def Model.get_vector_size (m : Model) (vector_name : String) : Nat :=
  m.nodes.countP (fun n => n.name == vector_name)

/-- The five string-producing composition passes of `Model`, used to state
that none of them mutates the registry. -/
inductive PassKind where
  | fromPriorP
  | perturbP
  | logLikelihoodP
  | printCodeP
  | descriptionP
deriving DecidableEq

/-- Invoke one composition pass as a method call: the returned pair is the
produced string (`none` when the Python pass raises) together with the
model as it stands after the call.  Each method body of the source only
reads `self.nodes`, so the model after the call is the model before it. -/
def Model.runPass (m : Model) : PassKind → Option String × Model
  | .fromPriorP => (m.from_prior, m)
  | .perturbP => (m.perturb, m)
  | .logLikelihoodP => (m.log_likelihood, m)
  | .printCodeP => (some m.print_code, m)
  | .descriptionP => (some m.description, m)

/-! ### Lemmas about strings and the replacement worker -/

theorem str_ext {s t : String} (h : s.data = t.data) : s = t := by
  cases s; cases t; exact congrArg String.mk h

theorem data_append (s t : String) : (s ++ t).data = s.data ++ t.data := by
  cases s; cases t; rfl

theorem data_mk (l : List Char) : (String.mk l).data = l := rfl

theorem replaceGo_nilS (pat rep : List Char) (fuel : Nat) : replaceGo pat rep fuel [] = [] := by
  cases fuel <;> rfl

theorem startsWithL_ff {p c : Char} (pr s : List Char) (h : (p == c) = false) :
    startsWithL (p :: pr) (c :: s) = false := by
  simp [startsWithL, h]

theorem startsWithL_self (l t : List Char) : startsWithL l (l ++ t) = true := by
  induction l with
  | nil => rfl
  | cons p ps ih => simp [startsWithL, ih]

/-- A definite mismatch between `pat` and `u` inside their common length:
if it holds, no occurrence of `pat` can start at `u`, whatever follows. -/
def mmW : List Char → List Char → Bool
  | _, [] => false
  | [], _ => false
  | p :: pr, c :: cs => p != c || mmW pr cs

/-- Every suffix of `xs` has a definite mismatch with `pat`: no occurrence
of `pat` can start anywhere inside `xs`, whatever follows `xs`. -/
def cleanScan (pat : List Char) : List Char → Bool
  | [] => true
  | c :: rest => mmW pat (c :: rest) && cleanScan pat rest

theorem startsWithL_append_false {pat u : List Char} (ys : List Char)
    (h : mmW pat u = true) : startsWithL pat (u ++ ys) = false := by
  induction pat generalizing u with
  | nil => cases u <;> simp [mmW] at h
  | cons p pr ih =>
    cases u with
    | nil => simp [mmW] at h
    | cons c cs =>
      simp only [mmW, Bool.or_eq_true] at h
      rcases h with h | h
      · simp [startsWithL, bne_iff_ne] at h ⊢
        intro hpc; exact absurd hpc h
      · simp [startsWithL, ih h]

theorem mem_of_startsWithL {c : Char} {pat s : List Char}
    (h : startsWithL pat s = true) (hc : c ∈ pat) : c ∈ s := by
  induction pat generalizing s with
  | nil => cases hc
  | cons p pr ih =>
    cases s with
    | nil => simp [startsWithL] at h
    | cons x xs =>
      simp only [startsWithL, Bool.and_eq_true, beq_iff_eq] at h
      rcases List.mem_cons.mp hc with rfl | hc
      · exact h.1 ▸ List.mem_cons_self x xs
      · exact List.mem_cons_of_mem x (ih h.2 hc)

theorem mem_of_hasSub {c : Char} {pat : List Char} :
    ∀ {s : List Char}, hasSub pat s = true → c ∈ pat → c ∈ s := by
  intro s
  induction s with
  | nil =>
    intro h hc
    cases pat with
    | nil => cases hc
    | cons p pr => simp [hasSub, startsWithL] at h
  | cons x xs ih =>
    intro h hc
    simp only [hasSub, Bool.or_eq_true] at h
    rcases h with h | h
    · exact mem_of_startsWithL h hc
    · exact List.mem_cons_of_mem x (ih h hc)

theorem mem_of_replaceGo {c : Char} {pat rep : List Char} :
    ∀ (fuel : Nat) (s : List Char), c ∈ replaceGo pat rep fuel s → c ∈ s ∨ c ∈ rep := by
  intro fuel
  induction fuel with
  | zero =>
    intro s h
    cases s with
    | nil => rw [replaceGo_nilS] at h; cases h
    | cons a t => exact Or.inl h
  | succ f ih =>
    intro s h
    cases s with
    | nil => rw [replaceGo_nilS] at h; cases h
    | cons a t =>
      rw [replaceGo] at h
      split at h
      · rcases List.mem_append.mp h with h | h
        · exact Or.inr h
        · rcases ih _ h with h | h
          · exact Or.inl (List.mem_cons_of_mem a (List.drop_subset _ t h))
          · exact Or.inr h
      · rcases List.mem_cons.mp h with h | h
        · exact Or.inl (List.mem_cons.mpr (Or.inl h))
        · rcases ih _ h with h | h
          · exact Or.inl (List.mem_cons_of_mem a h)
          · exact Or.inr h

theorem mem_of_pyReplace {c : Char} {s pat rep : String}
    (h : c ∈ (pyReplace s pat rep).data) : c ∈ s.data ∨ c ∈ rep.data := by
  exact mem_of_replaceGo _ _ h

theorem replaceGo_fuelIrrel {pat rep : List Char} :
    ∀ (f1 f2 : Nat) (s : List Char), s.length ≤ f1 → s.length ≤ f2 →
      replaceGo pat rep f1 s = replaceGo pat rep f2 s := by
  intro f1
  induction f1 with
  | zero =>
    intro f2 s h1 _
    have : s = [] := List.eq_nil_of_length_eq_zero (Nat.le_zero.mp h1)
    subst this
    rw [replaceGo_nilS, replaceGo_nilS]
  | succ f ih =>
    intro f2 s h1 h2
    cases s with
    | nil => rw [replaceGo_nilS, replaceGo_nilS]
    | cons a t =>
      cases f2 with
      | zero => simp at h2
      | succ g =>
        rw [replaceGo, replaceGo]
        split
        · have hd : (t.drop (pat.length - 1)).length ≤ t.length := by
            rw [List.length_drop]; omega
          simp only [List.length_cons] at h1 h2
          exact congrArg (fun l => rep ++ l) (ih g _ (by omega) (by omega))
        · simp only [List.length_cons] at h1 h2
          exact congrArg (fun l => a :: l) (ih g t (by omega) (by omega))

theorem rgFree {p : Char} {pr rep : List Char} :
    ∀ (xs : List Char) {ys : List Char} {F : Nat}, p ∉ xs → xs.length + ys.length ≤ F →
      replaceGo (p :: pr) rep F (xs ++ ys) = xs ++ replaceGo (p :: pr) rep F ys := by
  intro xs
  induction xs with
  | nil => intro ys F _ _; rfl
  | cons x xt ih =>
    intro ys F hx hf
    cases F with
    | zero => simp at hf
    | succ f =>
      have hpx : (p == x) = false := by
        simp only [beq_eq_false_iff_ne]
        intro hp; exact hx (hp ▸ List.mem_cons_self x xt)
      rw [List.cons_append, replaceGo]
      rw [if_neg]
      · have hys : ys.length ≤ f := by
          simp only [List.length_cons] at hf; omega
        rw [ih (fun hm => hx (List.mem_cons_of_mem x hm))
            (by simp only [List.length_cons] at hf; omega)]
        rw [replaceGo_fuelIrrel f (f+1) ys hys (by omega)]
        rfl
      · intro hcon
        rw [startsWithL_ff pr (xt ++ ys) hpx] at hcon
        exact absurd hcon.1 (by simp)

theorem rgClean {p : Char} {pr rep : List Char} :
    ∀ (xs : List Char) {ys : List Char} {F : Nat},
      cleanScan (p :: pr) xs = true → xs.length + ys.length ≤ F →
      replaceGo (p :: pr) rep F (xs ++ ys) = xs ++ replaceGo (p :: pr) rep F ys := by
  intro xs
  induction xs with
  | nil => intro ys F _ _; rfl
  | cons x xt ih =>
    intro ys F hx hf
    cases F with
    | zero => simp at hf
    | succ f =>
      simp only [cleanScan, Bool.and_eq_true] at hx
      rw [List.cons_append, replaceGo]
      rw [if_neg]
      · have hys : ys.length ≤ f := by
          simp only [List.length_cons] at hf; omega
        rw [ih hx.2 (by simp only [List.length_cons] at hf; omega)]
        rw [replaceGo_fuelIrrel f (f+1) ys hys (by omega)]
        rfl
      · intro hcon
        have := startsWithL_append_false ys hx.1
        rw [List.cons_append] at this
        rw [this] at hcon
        exact absurd hcon.1 (by simp)

theorem rgMatch {p : Char} {pr rep : List Char} {ys : List Char} {F : Nat}
    (hf : pr.length + 1 + ys.length ≤ F) :
    replaceGo (p :: pr) rep F ((p :: pr) ++ ys) = rep ++ replaceGo (p :: pr) rep F ys := by
  cases F with
  | zero => omega
  | succ f =>
    rw [List.cons_append, replaceGo]
    rw [if_pos]
    · have hdrop : (pr ++ ys).drop ((p :: pr).length - 1) = ys := by
        simp only [List.length_cons, Nat.add_sub_cancel]
        exact List.drop_left pr ys
      rw [hdrop]
      rw [replaceGo_fuelIrrel f (f+1) ys (by omega) (by omega)]
    · constructor
      · have := startsWithL_self (p :: pr) ys
        rw [List.cons_append] at this
        exact this
      · simp

theorem rgStopFree {p : Char} {pr rep : List Char} {xs : List Char} {F : Nat}
    (hx : p ∉ xs) (hf : xs.length ≤ F) :
    replaceGo (p :: pr) rep F xs = xs := by
  have := @rgFree p pr rep xs [] F hx (by simpa using hf)
  simpa [replaceGo_nilS] using this

theorem rgStopClean {p : Char} {pr rep : List Char} {xs : List Char} {F : Nat}
    (hx : cleanScan (p :: pr) xs = true) (hf : xs.length ≤ F) :
    replaceGo (p :: pr) rep F xs = xs := by
  have := @rgClean p pr rep xs [] F hx (by simpa using hf)
  simpa [replaceGo_nilS] using this

/-! ### Evaluated substitutions of the concrete templates -/

theorem eqRandInt (s : String) :
    pyReplace "int which = rng.rand_int(\x7bn\x7d);\n" "\x7bn\x7d" s
      = "int which = rng.rand_int(" ++ s ++ ");\n" := by
  apply str_ext
  rw [data_append, data_append]
  show replaceGo "\x7bn\x7d".data s.data
      ("int which = rng.rand_int(\x7bn\x7d);\n".data.length)
      "int which = rng.rand_int(\x7bn\x7d);\n".data
    = "int which = rng.rand_int(".data ++ s.data ++ ");\n".data
  have hP : "\x7bn\x7d".data = '\x7b' :: ['n', '\x7d'] := by decide
  have hT : "int which = rng.rand_int(\x7bn\x7d);\n".data
      = "int which = rng.rand_int(".data ++ (('\x7b' :: ['n', '\x7d']) ++ ");\n".data) := by decide
  rw [hP, hT]
  rw [rgFree "int which = rng.rand_int(".data (by decide) (by simp)]
  rw [rgMatch (by simp)]
  rw [rgStopFree (by decide : '\x7b' ∉ ");\n".data) (by simp)]
  simp [List.append_assoc]

theorem eqIfHeader (s : String) :
    pyReplace "if(which == \x7bk\x7d)\n\x7b\n" "\x7bk\x7d" s
      = "if(which == " ++ s ++ ")\n\x7b\n" := by
  apply str_ext
  rw [data_append, data_append]
  show replaceGo "\x7bk\x7d".data s.data
      ("if(which == \x7bk\x7d)\n\x7b\n".data.length)
      "if(which == \x7bk\x7d)\n\x7b\n".data
    = "if(which == ".data ++ s.data ++ ")\n\x7b\n".data
  have hP : "\x7bk\x7d".data = '\x7b' :: ['k', '\x7d'] := by decide
  have hT : "if(which == \x7bk\x7d)\n\x7b\n".data
      = "if(which == ".data ++ (('\x7b' :: ['k', '\x7d']) ++ ")\n\x7b\n".data) := by decide
  rw [hP, hT]
  rw [rgFree "if(which == ".data (by decide) (by simp)]
  rw [rgMatch (by simp)]
  rw [rgStopClean (by decide : cleanScan ('\x7b' :: ['k', '\x7d']) ")\n\x7b\n".data = true) (by simp)]
  simp [List.append_assoc]
set_option maxRecDepth 8192

theorem uniPerturbStepA (a : String) :
    pyReplace "\x7bx\x7d += (\x7bb\x7d - (\x7ba\x7d))*rng.randh();\nwrap(\x7bx\x7d, \x7ba\x7d, \x7bb\x7d);\n" "\x7ba\x7d" a = "\x7bx\x7d += (\x7bb\x7d - (" ++ (a ++ ("))*rng.randh();\nwrap(\x7bx\x7d, " ++ (a ++ (", \x7bb\x7d);\n")))) := by
  apply str_ext
  show replaceGo ('\x7b' :: ['a', '\x7d']) a.data ("\x7bx\x7d += (\x7bb\x7d - (\x7ba\x7d))*rng.randh();\nwrap(\x7bx\x7d, \x7ba\x7d, \x7bb\x7d);\n".data.length)
      ("\x7bx\x7d += (\x7bb\x7d - (".data ++ (('\x7b' :: ['a', '\x7d']) ++ ("))*rng.randh();\nwrap(\x7bx\x7d, ".data ++ (('\x7b' :: ['a', '\x7d']) ++ (", \x7bb\x7d);\n".data)))))
    = "\x7bx\x7d += (\x7bb\x7d - (".data ++ (a.data ++ ("))*rng.randh();\nwrap(\x7bx\x7d, ".data ++ (a.data ++ (", \x7bb\x7d);\n".data))))
  rw [rgClean "\x7bx\x7d += (\x7bb\x7d - (".data (by decide) (by simp only [data_append, List.length_append, List.length_cons, List.length_nil]; omega)]
  rw [rgMatch (by simp only [data_append, List.length_append, List.length_cons, List.length_nil]; omega)]
  rw [rgClean "))*rng.randh();\nwrap(\x7bx\x7d, ".data (by decide) (by simp only [data_append, List.length_append, List.length_cons, List.length_nil]; omega)]
  rw [rgMatch (by simp only [data_append, List.length_append, List.length_cons, List.length_nil]; omega)]
  rw [rgStopClean (by decide : cleanScan ('\x7b' :: ['a', '\x7d']) ", \x7bb\x7d);\n".data = true) (by simp only [data_append, List.length_append, List.length_cons, List.length_nil]; omega)]

theorem uniPerturbSubst (a b : String) (ha : '\x7b' ∉ a.data) :
    pyReplace (pyReplace "\x7bx\x7d += (\x7bb\x7d - (\x7ba\x7d))*rng.randh();\nwrap(\x7bx\x7d, \x7ba\x7d, \x7bb\x7d);\n" "\x7ba\x7d" a) "\x7bb\x7d" b = "\x7bx\x7d += (" ++ (b ++ (" - (" ++ (a ++ ("))*rng.randh();\nwrap(\x7bx\x7d, " ++ (a ++ (", " ++ (b ++ (");\n")))))))) := by
  rw [uniPerturbStepA a]
  apply str_ext
  show replaceGo ('\x7b' :: ['b', '\x7d']) b.data (("\x7bx\x7d += (\x7bb\x7d - (" ++ (a ++ ("))*rng.randh();\nwrap(\x7bx\x7d, " ++ (a ++ (", \x7bb\x7d);\n"))))).data.length)
      ("\x7bx\x7d += (".data ++ (('\x7b' :: ['b', '\x7d']) ++ (" - (".data ++ (a.data ++ ("))*rng.randh();\nwrap(\x7bx\x7d, ".data ++ (a.data ++ (", ".data ++ (('\x7b' :: ['b', '\x7d']) ++ (");\n".data)))))))))
    = "\x7bx\x7d += (".data ++ (b.data ++ (" - (".data ++ (a.data ++ ("))*rng.randh();\nwrap(\x7bx\x7d, ".data ++ (a.data ++ (", ".data ++ (b.data ++ (");\n".data))))))))
  rw [rgClean "\x7bx\x7d += (".data (by decide) (by simp only [data_append, List.length_append, List.length_cons, List.length_nil]; omega)]
  rw [rgMatch (by simp only [data_append, List.length_append, List.length_cons, List.length_nil]; omega)]
  rw [rgFree " - (".data (by decide) (by simp only [data_append, List.length_append, List.length_cons, List.length_nil]; omega)]
  rw [rgFree a.data ha (by simp only [data_append, List.length_append, List.length_cons, List.length_nil]; omega)]
  rw [rgClean "))*rng.randh();\nwrap(\x7bx\x7d, ".data (by decide) (by simp only [data_append, List.length_append, List.length_cons, List.length_nil]; omega)]
  rw [rgFree a.data ha (by simp only [data_append, List.length_append, List.length_cons, List.length_nil]; omega)]
  rw [rgFree ", ".data (by decide) (by simp only [data_append, List.length_append, List.length_cons, List.length_nil]; omega)]
  rw [rgMatch (by simp only [data_append, List.length_append, List.length_cons, List.length_nil]; omega)]
  rw [rgStopFree (by decide : '\x7b' ∉ ");\n".data) (by simp only [data_append, List.length_append, List.length_cons, List.length_nil]; omega)]

theorem logUniPerturbStepA (a : String) :
    pyReplace "\x7bx\x7d = log(\x7bx\x7d);\n\x7bx\x7d += log((\x7bb\x7d)/(\x7ba\x7d))*rng.randh();\nwrap(\x7bx\x7d, log(\x7ba\x7d), log(\x7bb\x7d));\n\x7bx\x7d = exp(\x7bx\x7d);\n" "\x7ba\x7d" a = "\x7bx\x7d = log(\x7bx\x7d);\n\x7bx\x7d += log((\x7bb\x7d)/(" ++ (a ++ ("))*rng.randh();\nwrap(\x7bx\x7d, log(" ++ (a ++ ("), log(\x7bb\x7d));\n\x7bx\x7d = exp(\x7bx\x7d);\n")))) := by
  apply str_ext
  show replaceGo ('\x7b' :: ['a', '\x7d']) a.data ("\x7bx\x7d = log(\x7bx\x7d);\n\x7bx\x7d += log((\x7bb\x7d)/(\x7ba\x7d))*rng.randh();\nwrap(\x7bx\x7d, log(\x7ba\x7d), log(\x7bb\x7d));\n\x7bx\x7d = exp(\x7bx\x7d);\n".data.length)
      ("\x7bx\x7d = log(\x7bx\x7d);\n\x7bx\x7d += log((\x7bb\x7d)/(".data ++ (('\x7b' :: ['a', '\x7d']) ++ ("))*rng.randh();\nwrap(\x7bx\x7d, log(".data ++ (('\x7b' :: ['a', '\x7d']) ++ ("), log(\x7bb\x7d));\n\x7bx\x7d = exp(\x7bx\x7d);\n".data)))))
    = "\x7bx\x7d = log(\x7bx\x7d);\n\x7bx\x7d += log((\x7bb\x7d)/(".data ++ (a.data ++ ("))*rng.randh();\nwrap(\x7bx\x7d, log(".data ++ (a.data ++ ("), log(\x7bb\x7d));\n\x7bx\x7d = exp(\x7bx\x7d);\n".data))))
  rw [rgClean "\x7bx\x7d = log(\x7bx\x7d);\n\x7bx\x7d += log((\x7bb\x7d)/(".data (by decide) (by simp only [data_append, List.length_append, List.length_cons, List.length_nil]; omega)]
  rw [rgMatch (by simp only [data_append, List.length_append, List.length_cons, List.length_nil]; omega)]
  rw [rgClean "))*rng.randh();\nwrap(\x7bx\x7d, log(".data (by decide) (by simp only [data_append, List.length_append, List.length_cons, List.length_nil]; omega)]
  rw [rgMatch (by simp only [data_append, List.length_append, List.length_cons, List.length_nil]; omega)]
  rw [rgStopClean (by decide : cleanScan ('\x7b' :: ['a', '\x7d']) "), log(\x7bb\x7d));\n\x7bx\x7d = exp(\x7bx\x7d);\n".data = true) (by simp only [data_append, List.length_append, List.length_cons, List.length_nil]; omega)]

theorem logUniPerturbSubst (a b : String) (ha : '\x7b' ∉ a.data) :
    pyReplace (pyReplace "\x7bx\x7d = log(\x7bx\x7d);\n\x7bx\x7d += log((\x7bb\x7d)/(\x7ba\x7d))*rng.randh();\nwrap(\x7bx\x7d, log(\x7ba\x7d), log(\x7bb\x7d));\n\x7bx\x7d = exp(\x7bx\x7d);\n" "\x7ba\x7d" a) "\x7bb\x7d" b = "\x7bx\x7d = log(\x7bx\x7d);\n\x7bx\x7d += log((" ++ (b ++ (")/(" ++ (a ++ ("))*rng.randh();\nwrap(\x7bx\x7d, log(" ++ (a ++ ("), log(" ++ (b ++ ("));\n\x7bx\x7d = exp(\x7bx\x7d);\n")))))))) := by
  rw [logUniPerturbStepA a]
  apply str_ext
  show replaceGo ('\x7b' :: ['b', '\x7d']) b.data (("\x7bx\x7d = log(\x7bx\x7d);\n\x7bx\x7d += log((\x7bb\x7d)/(" ++ (a ++ ("))*rng.randh();\nwrap(\x7bx\x7d, log(" ++ (a ++ ("), log(\x7bb\x7d));\n\x7bx\x7d = exp(\x7bx\x7d);\n"))))).data.length)
      ("\x7bx\x7d = log(\x7bx\x7d);\n\x7bx\x7d += log((".data ++ (('\x7b' :: ['b', '\x7d']) ++ (")/(".data ++ (a.data ++ ("))*rng.randh();\nwrap(\x7bx\x7d, log(".data ++ (a.data ++ ("), log(".data ++ (('\x7b' :: ['b', '\x7d']) ++ ("));\n\x7bx\x7d = exp(\x7bx\x7d);\n".data)))))))))
    = "\x7bx\x7d = log(\x7bx\x7d);\n\x7bx\x7d += log((".data ++ (b.data ++ (")/(".data ++ (a.data ++ ("))*rng.randh();\nwrap(\x7bx\x7d, log(".data ++ (a.data ++ ("), log(".data ++ (b.data ++ ("));\n\x7bx\x7d = exp(\x7bx\x7d);\n".data))))))))
  rw [rgClean "\x7bx\x7d = log(\x7bx\x7d);\n\x7bx\x7d += log((".data (by decide) (by simp only [data_append, List.length_append, List.length_cons, List.length_nil]; omega)]
  rw [rgMatch (by simp only [data_append, List.length_append, List.length_cons, List.length_nil]; omega)]
  rw [rgFree ")/(".data (by decide) (by simp only [data_append, List.length_append, List.length_cons, List.length_nil]; omega)]
  rw [rgFree a.data ha (by simp only [data_append, List.length_append, List.length_cons, List.length_nil]; omega)]
  rw [rgClean "))*rng.randh();\nwrap(\x7bx\x7d, log(".data (by decide) (by simp only [data_append, List.length_append, List.length_cons, List.length_nil]; omega)]
  rw [rgFree a.data ha (by simp only [data_append, List.length_append, List.length_cons, List.length_nil]; omega)]
  rw [rgFree "), log(".data (by decide) (by simp only [data_append, List.length_append, List.length_cons, List.length_nil]; omega)]
  rw [rgMatch (by simp only [data_append, List.length_append, List.length_cons, List.length_nil]; omega)]
  rw [rgStopClean (by decide : cleanScan ('\x7b' :: ['b', '\x7d']) "));\n\x7bx\x7d = exp(\x7bx\x7d);\n".data = true) (by simp only [data_append, List.length_append, List.length_cons, List.length_nil]; omega)]

theorem normalPerturbStepA (mu : String) :
    pyReplace "log_H -= -0.5*pow(((\x7bx\x7d) - (\x7bmu\x7d))/(\x7bsigma\x7d), 2);\n\x7bx\x7d += (\x7bsigma\x7d)*rng.randh();\nlog_H += -0.5*pow(((\x7bx\x7d) - (\x7bmu\x7d))/(\x7bsigma\x7d), 2);\n" "\x7bmu\x7d" mu = "log_H -= -0.5*pow(((\x7bx\x7d) - (" ++ (mu ++ ("))/(\x7bsigma\x7d), 2);\n\x7bx\x7d += (\x7bsigma\x7d)*rng.randh();\nlog_H += -0.5*pow(((\x7bx\x7d) - (" ++ (mu ++ ("))/(\x7bsigma\x7d), 2);\n")))) := by
  apply str_ext
  show replaceGo ('\x7b' :: ['m', 'u', '\x7d']) mu.data ("log_H -= -0.5*pow(((\x7bx\x7d) - (\x7bmu\x7d))/(\x7bsigma\x7d), 2);\n\x7bx\x7d += (\x7bsigma\x7d)*rng.randh();\nlog_H += -0.5*pow(((\x7bx\x7d) - (\x7bmu\x7d))/(\x7bsigma\x7d), 2);\n".data.length)
      ("log_H -= -0.5*pow(((\x7bx\x7d) - (".data ++ (('\x7b' :: ['m', 'u', '\x7d']) ++ ("))/(\x7bsigma\x7d), 2);\n\x7bx\x7d += (\x7bsigma\x7d)*rng.randh();\nlog_H += -0.5*pow(((\x7bx\x7d) - (".data ++ (('\x7b' :: ['m', 'u', '\x7d']) ++ ("))/(\x7bsigma\x7d), 2);\n".data)))))
    = "log_H -= -0.5*pow(((\x7bx\x7d) - (".data ++ (mu.data ++ ("))/(\x7bsigma\x7d), 2);\n\x7bx\x7d += (\x7bsigma\x7d)*rng.randh();\nlog_H += -0.5*pow(((\x7bx\x7d) - (".data ++ (mu.data ++ ("))/(\x7bsigma\x7d), 2);\n".data))))
  rw [rgClean "log_H -= -0.5*pow(((\x7bx\x7d) - (".data (by decide) (by simp only [data_append, List.length_append, List.length_cons, List.length_nil]; omega)]
  rw [rgMatch (by simp only [data_append, List.length_append, List.length_cons, List.length_nil]; omega)]
  rw [rgClean "))/(\x7bsigma\x7d), 2);\n\x7bx\x7d += (\x7bsigma\x7d)*rng.randh();\nlog_H += -0.5*pow(((\x7bx\x7d) - (".data (by decide) (by simp only [data_append, List.length_append, List.length_cons, List.length_nil]; omega)]
  rw [rgMatch (by simp only [data_append, List.length_append, List.length_cons, List.length_nil]; omega)]
  rw [rgStopClean (by decide : cleanScan ('\x7b' :: ['m', 'u', '\x7d']) "))/(\x7bsigma\x7d), 2);\n".data = true) (by simp only [data_append, List.length_append, List.length_cons, List.length_nil]; omega)]

theorem normalPerturbSubst (mu sigma : String) (hmu : '\x7b' ∉ mu.data) :
    pyReplace (pyReplace "log_H -= -0.5*pow(((\x7bx\x7d) - (\x7bmu\x7d))/(\x7bsigma\x7d), 2);\n\x7bx\x7d += (\x7bsigma\x7d)*rng.randh();\nlog_H += -0.5*pow(((\x7bx\x7d) - (\x7bmu\x7d))/(\x7bsigma\x7d), 2);\n" "\x7bmu\x7d" mu) "\x7bsigma\x7d" sigma = "log_H -= -0.5*pow(((\x7bx\x7d) - (" ++ (mu ++ ("))/(" ++ (sigma ++ ("), 2);\n\x7bx\x7d += (" ++ (sigma ++ (")*rng.randh();\nlog_H += -0.5*pow(((\x7bx\x7d) - (" ++ (mu ++ ("))/(" ++ (sigma ++ ("), 2);\n")))))))))) := by
  rw [normalPerturbStepA mu]
  apply str_ext
  show replaceGo ('\x7b' :: ['s', 'i', 'g', 'm', 'a', '\x7d']) sigma.data (("log_H -= -0.5*pow(((\x7bx\x7d) - (" ++ (mu ++ ("))/(\x7bsigma\x7d), 2);\n\x7bx\x7d += (\x7bsigma\x7d)*rng.randh();\nlog_H += -0.5*pow(((\x7bx\x7d) - (" ++ (mu ++ ("))/(\x7bsigma\x7d), 2);\n"))))).data.length)
      ("log_H -= -0.5*pow(((\x7bx\x7d) - (".data ++ (mu.data ++ ("))/(".data ++ (('\x7b' :: ['s', 'i', 'g', 'm', 'a', '\x7d']) ++ ("), 2);\n\x7bx\x7d += (".data ++ (('\x7b' :: ['s', 'i', 'g', 'm', 'a', '\x7d']) ++ (")*rng.randh();\nlog_H += -0.5*pow(((\x7bx\x7d) - (".data ++ (mu.data ++ ("))/(".data ++ (('\x7b' :: ['s', 'i', 'g', 'm', 'a', '\x7d']) ++ ("), 2);\n".data)))))))))))
    = "log_H -= -0.5*pow(((\x7bx\x7d) - (".data ++ (mu.data ++ ("))/(".data ++ (sigma.data ++ ("), 2);\n\x7bx\x7d += (".data ++ (sigma.data ++ (")*rng.randh();\nlog_H += -0.5*pow(((\x7bx\x7d) - (".data ++ (mu.data ++ ("))/(".data ++ (sigma.data ++ ("), 2);\n".data))))))))))
  rw [rgClean "log_H -= -0.5*pow(((\x7bx\x7d) - (".data (by decide) (by simp only [data_append, List.length_append, List.length_cons, List.length_nil]; omega)]
  rw [rgFree mu.data hmu (by simp only [data_append, List.length_append, List.length_cons, List.length_nil]; omega)]
  rw [rgFree "))/(".data (by decide) (by simp only [data_append, List.length_append, List.length_cons, List.length_nil]; omega)]
  rw [rgMatch (by simp only [data_append, List.length_append, List.length_cons, List.length_nil]; omega)]
  rw [rgClean "), 2);\n\x7bx\x7d += (".data (by decide) (by simp only [data_append, List.length_append, List.length_cons, List.length_nil]; omega)]
  rw [rgMatch (by simp only [data_append, List.length_append, List.length_cons, List.length_nil]; omega)]
  rw [rgClean ")*rng.randh();\nlog_H += -0.5*pow(((\x7bx\x7d) - (".data (by decide) (by simp only [data_append, List.length_append, List.length_cons, List.length_nil]; omega)]
  rw [rgFree mu.data hmu (by simp only [data_append, List.length_append, List.length_cons, List.length_nil]; omega)]
  rw [rgFree "))/(".data (by decide) (by simp only [data_append, List.length_append, List.length_cons, List.length_nil]; omega)]
  rw [rgMatch (by simp only [data_append, List.length_append, List.length_cons, List.length_nil]; omega)]
  rw [rgStopFree (by decide : '\x7b' ∉ "), 2);\n".data) (by simp only [data_append, List.length_append, List.length_cons, List.length_nil]; omega)]

/-! ### Specification-side descriptions of the passes -/

/-- String append is associative (used to regroup emitted fragments). -/
theorem str_append_assoc (x y z : String) : (x ++ y) ++ z = x ++ (y ++ z) := by
  apply str_ext
  simp [data_append, List.append_assoc]

/-- Well-formedness used by the generation passes: every coordinate and
derived node carries a distribution (otherwise the Python pass raises). -/
def priorsPresent (m : Model) : Prop :=
  ∀ n ∈ m.nodes, (n.node_type = NodeType.coordinate ∨ n.node_type = NodeType.derived) →
    n.prior.isSome = true

/-- Well-formedness of the likelihood pass: every data node has a
distribution that implements `log_density`. -/
def dataDensitiesPresent (m : Model) : Prop :=
  ∀ n ∈ m.nodes, n.node_type = NodeType.data → (Node.log_density n).isSome = true

instance (m : Model) : Decidable (priorsPresent m) := by
  unfold priorsPresent
  exact List.decidableBAll _ m.nodes

instance (m : Model) : Decidable (dataDensitiesPresent m) := by
  unfold dataDensitiesPresent
  exact List.decidableBAll _ m.nodes

/-- The fragment a node contributes to `from_prior` (defaulting to `""`,
used only under `priorsPresent`). -/
def fragFromPrior (n : Node) : String := (Node.from_prior n).getD ""

/-- The fragment a node contributes inside its `perturb` guard. -/
def fragPerturb (n : Node) : String := (Node.perturb n).getD ""

/-- The fragment a data node contributes to `log_likelihood`. -/
def fragLogDens (n : Node) : String := (Node.log_density n).getD ""

/-- The guarded block emitted for the coordinate at sequential position
`k`. -/
def ifBlock (k : Nat) (frag : String) : String :=
  "if(which == " ++ toString k ++ ")\n\x7b\n" ++ indentLines frag ++ "\n\x7d\n"

theorem concatAll_nil : concatAll [] = "" := rfl

theorem concatAll_cons (x : String) (l : List String) :
    concatAll (x :: l) = x ++ concatAll l := rfl

theorem isType_eq_true {t : NodeType} {n : Node} :
    isType t n = true ↔ n.node_type = t := by
  simp [isType]

theorem passLoop_eq (pick : Node → Bool) (frag : Node → Option String) :
    ∀ (nodes : List Node), (∀ n ∈ nodes, pick n = true → (frag n).isSome = true) →
      passLoop pick frag nodes
        = some (concatAll ((nodes.filter pick).map (fun n => (frag n).getD ""))) := by
  intro nodes
  induction nodes with
  | nil => intro _; rfl
  | cons n rest ih =>
    intro h
    have hrest : ∀ x ∈ rest, pick x = true → (frag x).isSome = true :=
      fun x hx => h x (List.mem_cons_of_mem n hx)
    by_cases hp : pick n = true
    · obtain ⟨s, hs⟩ := Option.isSome_iff_exists.mp (h n (List.mem_cons_self n rest) hp)
      rw [passLoop, if_pos hp, hs, ih hrest]
      simp [List.filter_cons, hp, hs, concatAll_cons]
    · have hp' : pick n = false := by
        cases hpn : pick n
        · rfl
        · exact absurd hpn hp
      rw [passLoop, if_neg (by simp [hp']), ih hrest]
      simp [List.filter_cons, hp']

theorem fromPrior_isSome {n : Node} (h : n.prior.isSome = true) :
    (Node.from_prior n).isSome = true := by
  obtain ⟨d, hd⟩ := Option.isSome_iff_exists.mp h
  simp [Node.from_prior, hd]

theorem perturb_isSome {n : Node} (h : n.prior.isSome = true) :
    (Node.perturb n).isSome = true := by
  obtain ⟨d, hd⟩ := Option.isSome_iff_exists.mp h
  simp [Node.perturb, hd]

/-- C4: for every Model (whose coordinate and derived nodes all carry a
distribution, as the Python pass otherwise raises), `from_prior()` returns
exactly the concatenation, in registration order, of `from_prior()` of
every Coordinate node, followed by, again in registration order,
`from_prior()` of every Derived node; Data and PriorInfo nodes contribute
nothing, and every Coordinate fragment appears before any Derived fragment
regardless of the interleaving of their registration. -/
theorem from_prior_spec (m : Model) (h : priorsPresent m) :
    m.from_prior
      = some (concatAll ((m.nodes.filter (isType NodeType.coordinate)).map fragFromPrior)
              ++ concatAll ((m.nodes.filter (isType NodeType.derived)).map fragFromPrior)) := by
  have hc : ∀ n ∈ m.nodes, isType NodeType.coordinate n = true → (Node.from_prior n).isSome = true :=
    fun n hn hp => fromPrior_isSome (h n hn (Or.inl (isType_eq_true.mp hp)))
  have hd : ∀ n ∈ m.nodes, isType NodeType.derived n = true → (Node.from_prior n).isSome = true :=
    fun n hn hp => fromPrior_isSome (h n hn (Or.inr (isType_eq_true.mp hp)))
  rw [Model.from_prior]
  rw [passLoop_eq _ _ _ hc, passLoop_eq _ _ _ hd]
  rfl

theorem perturbIfLoop_spec :
    ∀ (nodes : List Node) (k : Nat),
      (∀ n ∈ nodes, n.node_type = NodeType.coordinate → (Node.perturb n).isSome = true) →
      perturbIfLoop k nodes
        = some (concatAll ((List.enumFrom k (nodes.filter (isType NodeType.coordinate))).map
            (fun p => ifBlock p.1 (fragPerturb p.2)))) := by
  intro nodes
  induction nodes with
  | nil => intro _ _; rfl
  | cons n rest ih =>
    intro k h
    have hrest : ∀ x ∈ rest, x.node_type = NodeType.coordinate → (Node.perturb x).isSome = true :=
      fun x hx => h x (List.mem_cons_of_mem n hx)
    by_cases hp : isType NodeType.coordinate n = true
    · obtain ⟨s, hs⟩ := Option.isSome_iff_exists.mp
        (h n (List.mem_cons_self n rest) (isType_eq_true.mp hp))
      rw [perturbIfLoop, if_pos hp, hs, ih (k+1) hrest]
      rw [eqIfHeader (toString k)]
      simp only [List.filter_cons, hp, if_pos, List.enumFrom, List.map_cons, concatAll_cons]
      have : fragPerturb n = s := by simp [fragPerturb, hs]
      rw [this]
      rfl
    · have hp' : isType NodeType.coordinate n = false := by
        cases hpn : isType NodeType.coordinate n
        · rfl
        · exact absurd hpn hp
      rw [perturbIfLoop, if_neg (by simp [hp']), ih k hrest]
      simp [List.filter_cons, hp']

theorem log_likelihood_spec (m : Model) (h : dataDensitiesPresent m) :
    m.log_likelihood
      = some ("double logp = 0.0;\n\n"
              ++ concatAll ((m.nodes.filter (isType NodeType.data)).map fragLogDens)
              ++ "\nreturn logp;") := by
  have hd : ∀ n ∈ m.nodes, isType NodeType.data n = true → (Node.log_density n).isSome = true :=
    fun n hn hp => h n hn (isType_eq_true.mp hp)
  rw [Model.log_likelihood]
  rw [passLoop_eq _ _ _ hd]
  rfl

/-- C3: for every Model (whose coordinate and derived nodes all carry a
distribution), `perturb()` returns the declaration of `log_H` initialized
to zero, a draw of a random integer index over `[0, n)` where `n` is the
number of Coordinate nodes in the registry (so with exactly one Coordinate
node the draw range size is 1), then one conditional block per Coordinate
node in registration order guarded by equality of the drawn index with its
sequential position `k = 0..n-1` containing that node's perturb fragment,
then every Derived node's `from_prior()` fragment in registration order,
then the statement returning `log_H`. -/
theorem perturb_spec (m : Model) (h : priorsPresent m) :
    m.perturb
      = some ("double log_H = 0.0;\n"
              ++ ("int which = rng.rand_int("
                  ++ toString ((m.nodes.filter (isType NodeType.coordinate)).length) ++ ");\n")
              ++ concatAll ((List.enumFrom 0 (m.nodes.filter (isType NodeType.coordinate))).map
                  (fun p => ifBlock p.1 (fragPerturb p.2)))
              ++ concatAll ((m.nodes.filter (isType NodeType.derived)).map fragFromPrior)
              ++ "return log_H;\n") := by
  have hc : ∀ n ∈ m.nodes, n.node_type = NodeType.coordinate → (Node.perturb n).isSome = true :=
    fun n hn hp => perturb_isSome (h n hn (Or.inl hp))
  have hd : ∀ n ∈ m.nodes, isType NodeType.derived n = true → (Node.from_prior n).isSome = true :=
    fun n hn hp => fromPrior_isSome (h n hn (Or.inr (isType_eq_true.mp hp)))
  rw [Model.perturb]
  rw [perturbIfLoop_spec m.nodes 0 hc, passLoop_eq _ _ _ hd]
  rw [List.countP_eq_length_filter]
  rw [eqRandInt (toString ((m.nodes.filter (isType NodeType.coordinate)).length))]
  rfl

/-! ### Registry update lemmas -/

theorem updateEntry_append (node : Node) :
    ∀ (nodes : List Node), node.name ∉ nodes.map Node.name →
      updateEntry node nodes = nodes ++ [node] := by
  intro nodes
  induction nodes with
  | nil => intro _; rfl
  | cons n rest ih =>
    intro h
    have hne : ¬ (n.name = node.name) := by
      intro he
      exact h (by simp [List.mem_cons]; exact Or.inl he.symm)
    rw [updateEntry, if_neg hne, ih (fun hm => h (List.mem_cons_of_mem _ hm))]
    rfl

theorem passLoop_append_nonpick (pick : Node → Bool) (frag : Node → Option String)
    (node : Node) (hnp : pick node = false) :
    ∀ (nodes : List Node), passLoop pick frag (nodes ++ [node]) = passLoop pick frag nodes := by
  intro nodes
  induction nodes with
  | nil =>
    show passLoop pick frag [node] = some ""
    rw [passLoop, if_neg (by simp [hnp])]
    rfl
  | cons n rest ih =>
    rw [List.cons_append, passLoop, passLoop, ih]

theorem map_name_if (node : Node) :
    ∀ (l : List Node), l.map (fun n => Node.name (if n.name = node.name then node else n))
      = l.map Node.name := by
  intro l
  induction l with
  | nil => rfl
  | cons n rest ih =>
    simp only [List.map_cons, ih]
    by_cases he : n.name = node.name
    · rw [if_pos he, he]
    · rw [if_neg he]

theorem map_if_id (node : Node) :
    ∀ (l : List Node), node.name ∉ l.map Node.name →
      l.map (fun n => if n.name = node.name then node else n) = l := by
  intro l
  induction l with
  | nil => intro _; rfl
  | cons n rest ih =>
    intro h
    have hne : ¬ (n.name = node.name) := by
      intro he
      exact h (by simp [List.mem_cons]; exact Or.inl he.symm)
    simp only [List.map_cons, if_neg hne, ih (fun hm => h (List.mem_cons_of_mem _ hm))]

theorem updateEntry_replace (node : Node) :
    ∀ (nodes : List Node), node.name ∈ nodes.map Node.name → (nodes.map Node.name).Nodup →
      updateEntry node nodes = nodes.map (fun n => if n.name = node.name then node else n) := by
  intro nodes
  induction nodes with
  | nil => intro h _; cases h
  | cons n rest ih =>
    intro hmem hnd
    simp only [List.map_cons, List.nodup_cons] at hnd
    by_cases he : n.name = node.name
    · rw [updateEntry, if_pos he, List.map_cons, if_pos he]
      rw [map_if_id node rest (by rw [← he]; exact hnd.1)]
    · have hmem' : node.name ∈ rest.map Node.name := by
        rw [List.map_cons] at hmem
        rcases List.mem_cons.mp hmem with h | h
        · exact absurd h.symm he
        · exact h
      rw [updateEntry, if_neg he, List.map_cons, if_neg he, ih hmem' hnd.2]

/-! ### Description pass and substring helpers -/

theorem descLoop_skip :
    ∀ (nodes : List Node), (∀ n ∈ nodes, n.node_type ≠ NodeType.coordinate) → ∀ (init : String),
      nodes.foldl
        (fun s n => if isType NodeType.coordinate n then s ++ "s += \"" ++ n.name ++ ", \";\n" else s)
        init = init := by
  intro nodes
  induction nodes with
  | nil => intro _ init; rfl
  | cons x xs ih =>
    intro h init
    have hx : isType NodeType.coordinate x = false := by
      cases hx : isType NodeType.coordinate x
      · rfl
      · exact absurd (isType_eq_true.mp hx) (h x (List.mem_cons_self x xs))
    rw [List.foldl_cons, if_neg (by simp [hx])]
    exact ih (fun n hn => h n (List.mem_cons_of_mem x hn)) init

theorem hasSub_false_of_missing {c : Char} {pat s : List Char}
    (hc : c ∈ pat) (hs : c ∉ s) : hasSub pat s = false := by
  cases h : hasSub pat s
  · rfl
  · exact absurd (mem_of_hasSub h hc) hs

theorem pyReplace_not_mem {c : Char} {s pat rep : String}
    (hs : c ∉ s.data) (hr : c ∉ rep.data) : c ∉ (pyReplace s pat rep).data := by
  intro h
  rcases mem_of_pyReplace h with h | h
  · exact hs h
  · exact hr h

/-! ### Denotation of the Normal perturb fragment -/

/-- The variable log-density term of `Normal(mu, sigma)` that the emitted
statements add to and subtract from `log_H`:
`-0.5*pow(((x) - (mu))/(sigma), 2)`. -/
def normalDensityTerm (mu sigma x : ℚ) : ℚ := -(1/2) * ((x - mu) / sigma)^2

/-- Denotation of the three statements of the `Normal.perturb` fragment,
executed in emitted order on the state `(x, log_H)` with random increment
`r` (so `rng.randh()` returned `r`): subtract the density term at the old
value, mutate `x`, then add the density term at the new value.  The result
is the final `(x, log_H)` pair. -/
def execNormalPerturb (mu sigma r x logH : ℚ) : ℚ × ℚ :=
  let logH1 := logH - normalDensityTerm mu sigma x
  let x1 := x + sigma * r
  let logH2 := logH1 + normalDensityTerm mu sigma x1
  (x1, logH2)

/-! ### Claim theorems -/

/-- C1 counterexample: for concrete bounded-uniform(0,1) and
log-uniform(1,100) distributions, the string returned by `perturb()`
contains no occurrence of `log_H` at all, so it contains no statements
accumulating a Metropolis-Hastings correction into `log_H`. -/
theorem bounded_perturb_logH_cex :
    hasSub "log_H".data (Distribution.perturb (Distribution.uniform "0" "1")).data = false ∧
    hasSub "log_H".data (Distribution.perturb (Distribution.loguniform "1" "100")).data = false := by
  decide

/-- C1 (amended): for bounded-uniform(a,b) and log-uniform(a,b), the string
returned by `perturb()` consists only of the value-update and wrap
statements (with the log-transform and exponential statements for
log-uniform) and contains no `log_H` accumulation statements at all
(provided the parameter strings contain no brace and no underscore
characters of their own). -/
theorem bounded_perturb_update_wrap_only (a b : String) (hbr : '\x7b' ∉ a.data)
    (ha : '_' ∉ a.data) (hb : '_' ∉ b.data) :
    Distribution.perturb (Distribution.uniform a b)
      = "\x7bx\x7d += (" ++ (b ++ (" - (" ++ (a ++ ("))*rng.randh();\nwrap(\x7bx\x7d, " ++ (a ++ (", " ++ (b ++ (");\n")))))))) ∧
    Distribution.perturb (Distribution.loguniform a b)
      = "\x7bx\x7d = log(\x7bx\x7d);\n\x7bx\x7d += log((" ++ (b ++ (")/(" ++ (a ++ ("))*rng.randh();\nwrap(\x7bx\x7d, log(" ++ (a ++ ("), log(" ++ (b ++ ("));\n\x7bx\x7d = exp(\x7bx\x7d);\n")))))))) ∧
    hasSub "log_H".data (Distribution.perturb (Distribution.uniform a b)).data = false ∧
    hasSub "log_H".data (Distribution.perturb (Distribution.loguniform a b)).data = false := by
  refine ⟨uniPerturbSubst a b hbr, logUniPerturbSubst a b hbr, ?_, ?_⟩
  · have hu1 : '_' ∉ (pyReplace "\x7bx\x7d += (\x7bb\x7d - (\x7ba\x7d))*rng.randh();\nwrap(\x7bx\x7d, \x7ba\x7d, \x7bb\x7d);\n" "\x7ba\x7d" a).data :=
      pyReplace_not_mem (by decide) ha
    have hu2 : '_' ∉ (Distribution.perturb (Distribution.uniform a b)).data :=
      pyReplace_not_mem hu1 hb
    exact hasSub_false_of_missing (by decide : '_' ∈ "log_H".data) hu2
  · have hl1 : '_' ∉ (pyReplace "\x7bx\x7d = log(\x7bx\x7d);\n\x7bx\x7d += log((\x7bb\x7d)/(\x7ba\x7d))*rng.randh();\nwrap(\x7bx\x7d, log(\x7ba\x7d), log(\x7bb\x7d));\n\x7bx\x7d = exp(\x7bx\x7d);\n" "\x7ba\x7d" a).data :=
      pyReplace_not_mem (by decide) ha
    have hl2 : '_' ∉ (Distribution.perturb (Distribution.loguniform a b)).data :=
      pyReplace_not_mem hl1 hb
    exact hasSub_false_of_missing (by decide : '_' ∈ "log_H".data) hl2

/-- C1 witness: the amended statement at the concrete parameters 0 and 1. -/
theorem bounded_perturb_update_wrap_only_witness :
    ('\x7b' ∉ "0".data ∧ '_' ∉ "0".data ∧ '_' ∉ "1".data) ∧
    (Distribution.perturb (Distribution.uniform "0" "1")
      = "\x7bx\x7d += (" ++ ("1" ++ (" - (" ++ ("0" ++ ("))*rng.randh();\nwrap(\x7bx\x7d, " ++ ("0" ++ (", " ++ ("1" ++ (");\n")))))))) ∧
    Distribution.perturb (Distribution.loguniform "0" "1")
      = "\x7bx\x7d = log(\x7bx\x7d);\n\x7bx\x7d += log((" ++ ("1" ++ (")/(" ++ ("0" ++ ("))*rng.randh();\nwrap(\x7bx\x7d, log(" ++ ("0" ++ ("), log(" ++ ("1" ++ ("));\n\x7bx\x7d = exp(\x7bx\x7d);\n")))))))) ∧
    hasSub "log_H".data (Distribution.perturb (Distribution.uniform "0" "1")).data = false ∧
    hasSub "log_H".data (Distribution.perturb (Distribution.loguniform "0" "1")).data = false) :=
  ⟨⟨by decide, by decide, by decide⟩,
   bounded_perturb_update_wrap_only "0" "1" (by decide) (by decide) (by decide)⟩

/-- C2 (code evaluation): after registering the three Coordinate nodes
built from base name `x` with indices 1, 2, 3, `get_vector_names` for the
coordinate role is exactly the set containing `x` and `get_scalar_names`
is empty, but `get_vector_size "x"` returns 0, not 3: the source counts
registry keys equal to `"x"` exactly, and the stored keys are `x[1]`,
`x[2]`, `x[3]`. -/
theorem vector_grouping_eval :
    ((Node.make DType.tFloat "x" (some (Distribution.uniform "0" "1")) NodeType.coordinate 1).bind fun n1 =>
      (Node.make DType.tFloat "x" (some (Distribution.uniform "0" "1")) NodeType.coordinate 2).bind fun n2 =>
      (Node.make DType.tFloat "x" (some (Distribution.uniform "0" "1")) NodeType.coordinate 3).map fun n3 =>
        ((((Model.mk []).add_node n1).add_node n2).add_node n3,
         ((((Model.mk []).add_node n1).add_node n2).add_node n3).get_vector_names NodeType.coordinate,
         ((((Model.mk []).add_node n1).add_node n2).add_node n3).get_scalar_names NodeType.coordinate,
         ((((Model.mk []).add_node n1).add_node n2).add_node n3).get_vector_size "x"))
      = some (Model.mk [⟨DType.tFloat, "x[1]", 1, some (Distribution.uniform "0" "1"), NodeType.coordinate⟩,
                        ⟨DType.tFloat, "x[2]", 2, some (Distribution.uniform "0" "1"), NodeType.coordinate⟩,
                        ⟨DType.tFloat, "x[3]", 3, some (Distribution.uniform "0" "1"), NodeType.coordinate⟩],
              {"x"}, ∅, 0) := by
  decide

/-- C5: for every Model whose data nodes implement `log_density`,
`log_likelihood()` is the zero-initialization of `logp`, the
`log_density` fragment of every Data node in registration order, then the
return of `logp`; and registering any further node of role PriorInfo or
Coordinate under a fresh name leaves the output unchanged. -/
theorem log_likelihood_pass (m : Model) (node : Node)
    (h : dataDensitiesPresent m)
    (hfresh : node.name ∉ m.nodes.map Node.name)
    (hrole : node.node_type = NodeType.prior_info ∨ node.node_type = NodeType.coordinate) :
    m.log_likelihood
      = some ("double logp = 0.0;\n\n"
              ++ concatAll ((m.nodes.filter (isType NodeType.data)).map fragLogDens)
              ++ "\nreturn logp;") ∧
    (m.add_node node).log_likelihood = m.log_likelihood := by
  refine ⟨log_likelihood_spec m h, ?_⟩
  have hnp : isType NodeType.data node = false := by
    rcases hrole with hr | hr <;> simp [isType, hr]
  have he : (m.add_node node).nodes = m.nodes ++ [node] :=
    updateEntry_append node m.nodes hfresh
  simp only [Model.log_likelihood]
  rw [he, passLoop_append_nonpick _ _ node hnp]

/-- C6: the `Normal(mu, sigma)` perturb fragment is exactly the three
statements, in order: subtract the log-density term at the current value
from `log_H`, add the scaled random increment to the value, add the
log-density term at the new value to `log_H`; executing them in that
order, the net `log_H` change equals the negative of the log-density-term
difference between the old and the new value. -/
theorem normal_perturb_bracketing (mu sigma : String) (hmu : '\x7b' ∉ mu.data)
    (qm qs r x lH : ℚ) :
    Distribution.perturb (Distribution.normal mu sigma)
      = ("log_H -= -0.5*pow(((\x7bx\x7d) - (" ++ (mu ++ ("))/(" ++ (sigma ++ "), 2);\n"))))
        ++ (("\x7bx\x7d += (" ++ (sigma ++ ")*rng.randh();\n"))
            ++ ("log_H += -0.5*pow(((\x7bx\x7d) - (" ++ (mu ++ ("))/(" ++ (sigma ++ "), 2);\n"))))) ∧
    (execNormalPerturb qm qs r x lH).1 = x + qs * r ∧
    (execNormalPerturb qm qs r x lH).2 - lH
      = -(normalDensityTerm qm qs x - normalDensityTerm qm qs (x + qs * r)) := by
  refine ⟨?_, rfl, ?_⟩
  · have h : Distribution.perturb (Distribution.normal mu sigma)
        = "log_H -= -0.5*pow(((\x7bx\x7d) - (" ++ (mu ++ ("))/(" ++ (sigma ++ ("), 2);\n\x7bx\x7d += (" ++ (sigma ++ (")*rng.randh();\nlog_H += -0.5*pow(((\x7bx\x7d) - (" ++ (mu ++ ("))/(" ++ (sigma ++ ("), 2);\n")))))))))) :=
      normalPerturbSubst mu sigma hmu
    rw [h]
    apply str_ext
    simp [data_append, List.append_assoc]
  · simp only [execNormalPerturb, normalDensityTerm]
    ring

/-- C6 witness: the bracketing statement at mu = 0, sigma = 1 and the
rational state x = 3, log_H = 5, increment r = 2. -/
theorem normal_perturb_bracketing_witness :
    ('\x7b' ∉ "0".data) ∧
    (Distribution.perturb (Distribution.normal "0" "1")
      = ("log_H -= -0.5*pow(((\x7bx\x7d) - (" ++ ("0" ++ ("))/(" ++ ("1" ++ "), 2);\n"))))
        ++ (("\x7bx\x7d += (" ++ ("1" ++ ")*rng.randh();\n"))
            ++ ("log_H += -0.5*pow(((\x7bx\x7d) - (" ++ ("0" ++ ("))/(" ++ ("1" ++ "), 2);\n"))))) ∧
    (execNormalPerturb 0 1 2 3 5).1 = 3 + 1 * 2 ∧
    (execNormalPerturb 0 1 2 3 5).2 - 5
      = -(normalDensityTerm 0 1 3 - normalDensityTerm 0 1 (3 + 1 * 2))) :=
  ⟨by decide, normal_perturb_bracketing "0" "1" (by decide) 0 1 2 3 5⟩

/-- C7: constructing a Node with role PriorInfo and a distribution other
than none fails at construction (the assertion raises and no Node is
produced), while constructing a PriorInfo Node with distribution none
succeeds. -/
theorem prior_info_assertion (dt : DType) (nm : String) (pr : Option Distribution) (idx : Nat) :
    (pr ≠ none → Node.make dt nm pr NodeType.prior_info idx = none) ∧
    (Node.make dt nm none NodeType.prior_info idx).isSome = true := by
  constructor
  · intro h
    simp [Node.make, h]
  · simp [Node.make]

/-- C7 witness: a PriorInfo node with a uniform distribution is rejected,
one with no distribution is produced. -/
theorem prior_info_assertion_witness :
    (some (Distribution.uniform "0" "1") ≠ (none : Option Distribution)) ∧
    (Node.make DType.tFloat "c" (some (Distribution.uniform "0" "1")) NodeType.prior_info 0 = none ∧
     (Node.make DType.tFloat "c" none NodeType.prior_info 0).isSome = true) :=
  ⟨by decide,
   ⟨(prior_info_assertion DType.tFloat "c" (some (Distribution.uniform "0" "1")) 0).1 (by decide),
    (prior_info_assertion DType.tFloat "c" (some (Distribution.uniform "0" "1")) 0).2⟩⟩

/-- C8: every composition pass is a pure function of the registry: a pass
leaves the model unchanged, and running any pass before another (or the
same one twice) does not change the produced string. -/
theorem passes_pure (m : Model) (p q : PassKind) :
    (m.runPass p).2 = m ∧ (((m.runPass q).2).runPass p).1 = (m.runPass p).1 := by
  cases p <;> cases q <;> exact ⟨rfl, rfl⟩

/-- C9: for a Model containing no Coordinate node, the five-character slice
of `description()` eats into the declaration itself and the returned
string is exactly `strin";\nreturn s;`. -/
theorem description_no_coordinates (m : Model)
    (h : ∀ n ∈ m.nodes, n.node_type ≠ NodeType.coordinate) :
    m.description = "strin\";\nreturn s;" := by
  simp only [Model.description]
  rw [descLoop_skip m.nodes h "string s;\n"]
  decide

/-- C9 witness: the empty model. -/
theorem description_no_coordinates_witness :
    (∀ n ∈ (Model.mk []).nodes, n.node_type ≠ NodeType.coordinate) ∧
    (Model.mk []).description = "strin\";\nreturn s;" :=
  ⟨by decide, description_no_coordinates (Model.mk []) (by decide)⟩

/-- C10: re-registering a name that already exists replaces the stored
node in place: the resulting registry is the old one with the entry of
that name replaced, and the name sequence (hence the iteration order used
by every composition pass) is unchanged, so the replacement node's
fragments are emitted at the original position. -/
theorem add_node_in_place (m : Model) (node : Node)
    (hmem : node.name ∈ m.nodes.map Node.name)
    (hnd : (m.nodes.map Node.name).Nodup) :
    (m.add_node node).nodes = m.nodes.map (fun n => if n.name = node.name then node else n) ∧
    (m.add_node node).nodes.map Node.name = m.nodes.map Node.name := by
  have h1 : (m.add_node node).nodes
      = m.nodes.map (fun n => if n.name = node.name then node else n) :=
    updateEntry_replace node m.nodes hmem hnd
  refine ⟨h1, ?_⟩
  rw [h1, List.map_map]
  exact map_name_if node m.nodes

/-! ### Concrete witness data -/

/-- A scalar coordinate with a bounded-uniform prior. -/
def uNode : Node := ⟨DType.tFloat, "u", 0, some (Distribution.uniform "0" "1"), NodeType.coordinate⟩

/-- A derived node recomputed from the coordinate by a formula. -/
def vNode : Node := ⟨DType.tFloat, "v", 0, some (Distribution.deterministic "2*u"), NodeType.derived⟩

/-- A data node with a normal likelihood centred on the derived value. -/
def dNode : Node := ⟨DType.tFloat, "d", 0, some (Distribution.normal "v" "1"), NodeType.data⟩

/-- A prior-information constant (no distribution). -/
def pNode : Node := ⟨DType.tFloat, "p", 0, none, NodeType.prior_info⟩

/-- A second prior-information constant under a fresh name. -/
def qNode : Node := ⟨DType.tInt, "q", 0, none, NodeType.prior_info⟩

/-- A model exercising all four roles. -/
def demoModel : Model := ⟨[uNode, vNode, dNode, pNode]⟩

/-- A second coordinate under the same name `u` but a different prior,
used to exercise in-place replacement. -/
def uNode2 : Node := ⟨DType.tFloat, "u", 0, some (Distribution.normal "0" "1"), NodeType.coordinate⟩

/-- C4 witness: the four-role demo model. -/
theorem from_prior_spec_witness :
    priorsPresent demoModel ∧
    demoModel.from_prior
      = some (concatAll ((demoModel.nodes.filter (isType NodeType.coordinate)).map fragFromPrior)
              ++ concatAll ((demoModel.nodes.filter (isType NodeType.derived)).map fragFromPrior)) :=
  ⟨by decide, from_prior_spec demoModel (by decide)⟩

/-- C3 witness: a model with exactly one coordinate node, so the emitted
draw is over range size 1. -/
theorem perturb_spec_witness :
    priorsPresent (Model.mk [uNode]) ∧
    (Model.mk [uNode]).perturb
      = some ("double log_H = 0.0;\n"
              ++ ("int which = rng.rand_int("
                  ++ toString (((Model.mk [uNode]).nodes.filter (isType NodeType.coordinate)).length) ++ ");\n")
              ++ concatAll ((List.enumFrom 0 ((Model.mk [uNode]).nodes.filter (isType NodeType.coordinate))).map
                  (fun p => ifBlock p.1 (fragPerturb p.2)))
              ++ concatAll (((Model.mk [uNode]).nodes.filter (isType NodeType.derived)).map fragFromPrior)
              ++ "return log_H;\n") :=
  ⟨by decide, perturb_spec (Model.mk [uNode]) (by decide)⟩

/-- C5 witness: the demo model plus a fresh prior-information node. -/
theorem log_likelihood_pass_witness :
    (dataDensitiesPresent demoModel ∧
     qNode.name ∉ demoModel.nodes.map Node.name ∧
     (qNode.node_type = NodeType.prior_info ∨ qNode.node_type = NodeType.coordinate)) ∧
    (demoModel.log_likelihood
      = some ("double logp = 0.0;\n\n"
              ++ concatAll ((demoModel.nodes.filter (isType NodeType.data)).map fragLogDens)
              ++ "\nreturn logp;") ∧
     (demoModel.add_node qNode).log_likelihood = demoModel.log_likelihood) :=
  ⟨⟨by decide, by decide, by decide⟩,
   log_likelihood_pass demoModel qNode (by decide) (by decide) (by decide)⟩

/-- C10 witness: replacing the coordinate `u` of the demo model by a node
of the same name with a different prior. -/
theorem add_node_in_place_witness :
    (uNode2.name ∈ demoModel.nodes.map Node.name ∧
     (demoModel.nodes.map Node.name).Nodup) ∧
    ((demoModel.add_node uNode2).nodes
       = demoModel.nodes.map (fun n => if n.name = uNode2.name then uNode2 else n) ∧
     (demoModel.add_node uNode2).nodes.map Node.name = demoModel.nodes.map Node.name) :=
  ⟨⟨by decide, by decide⟩, add_node_in_place demoModel uNode2 (by decide) (by decide)⟩
